import Mathlib

/-!
Verification of `create_test_job.py` (207 Photo Workflow sports test-job
generator).  The Python module is embedded shallowly: pure string/number
computations become Lean functions, the shared seeded PRNG (`RANDOM`)
becomes an explicit oracle `draws : Nat → Nat` consumed in call order
(`RANDOM.choice(lst)` is modelled as selecting `lst[draws t % lst.length]`
at draw time `t`), filesystem writes become lists of the written names, and
fallible operations (tuple destructuring of `str.split`) return `Option`.
-/

namespace CreateTestJob

/-- The character for decimal digit `d` (so `digitChar 3 = '3'`). -/
def digitChar (d : Nat) : Char := Char.ofNat (48 + d)

/-- Decimal digit characters, most significant first, with a structural
fuel argument so the kernel can evaluate it (`fuel > n` suffices). -/
def natDecimalAux (fuel : Nat) (n : Nat) : List Char :=
  match fuel with
  | 0 => []
  | fuel + 1 =>
    if n < 10 then [digitChar n]
    else natDecimalAux fuel (n / 10) ++ [digitChar (n % 10)]

/-- Decimal digit characters of `n`, most significant first, as produced by
Python `"{:d}".format(n)` before padding. -/
def natDecimal (n : Nat) : List Char := natDecimalAux (n + 1) n

theorem natDecimalAux_fuel :
    ∀ f1 f2 n, n < f1 → n < f2 → natDecimalAux f1 n = natDecimalAux f2 n := by
  intro f1
  induction f1 with
  | zero => intro f2 n h1; omega
  | succ f1 ih =>
    intro f2 n h1 h2
    match f2 with
    | 0 => omega
    | g + 1 =>
      simp only [natDecimalAux]
      by_cases h : n < 10
      · simp [h]
      · have hd : n / 10 < n := Nat.div_lt_self (by omega) (by omega)
        simp only [h, if_false]
        rw [ih g (n / 10) (by omega) (by omega)]

/-- Python `"{:0wd}".format(n)`: decimal digits of `n`, left-padded with `'0'`
to a minimum width `w`. -/
def zpad (w : Nat) (n : Nat) : List Char :=
  List.replicate (w - (natDecimal n).length) '0' ++ natDecimal n

/-- The three camera filename pattern shapes of `CAMERA_PATTERNS`
(the Python format strings `IMG_{:04d}.JPG`, `DSC_{:04d}.JPG`, `P{:07d}.JPG`). -/
inductive CameraPattern
  | img
  | dsc
  | p
deriving DecidableEq, Repr

/-- Apply a camera pattern format string to the number `n`. -/
def formatPattern : CameraPattern → Nat → List Char
  | .img, n => "IMG_".data ++ (zpad 4 n ++ ".JPG".data)
  | .dsc, n => "DSC_".data ++ (zpad 4 n ++ ".JPG".data)
  | .p,   n => "P".data ++ (zpad 7 n ++ ".JPG".data)

/-- `CAMERA_PATTERNS`: pattern shapes with their numeric base offsets
(src/create_test_job.py lines 28-32). -/
def CAMERA_PATTERNS : List (CameraPattern × Nat) :=
  [(.img, 2000), (.dsc, 5000), (.p, 1000000)]

/-- `RANDOM.choice(CAMERA_PATTERNS)` modelled by the oracle value `draw`:
the list element at index `draw % 3` is selected. -/
def choosePattern (draw : Nat) : CameraPattern × Nat :=
  CAMERA_PATTERNS.getD (draw % CAMERA_PATTERNS.length) (.img, 2000)

/-- `next_camera_name(counter)` (lines 76-78): format `base + counter` into
the randomly chosen pattern. -/
def next_camera_name (draw : Nat) (counter : Nat) : String :=
  ⟨formatPattern (choosePattern draw).1 ((choosePattern draw).2 + counter)⟩

/-! ### Injectivity of the decimal rendering -/

/-- One step of reading a decimal digit string back as a number. -/
def decStep (a : Nat) (c : Char) : Nat := 10 * a + (c.toNat - 48)

/-- Read a digit string back as the number it denotes. -/
def decVal (l : List Char) : Nat := l.foldl decStep 0

theorem digitChar_toNat (d : Nat) (h : d < 10) : (digitChar d).toNat = 48 + d := by
  interval_cases d <;> decide

theorem natDecimal_lt (n : Nat) (h : n < 10) : natDecimal n = [digitChar n] := by
  unfold natDecimal natDecimalAux
  simp [h]

theorem natDecimal_ge (n : Nat) (h : ¬ n < 10) :
    natDecimal n = natDecimal (n / 10) ++ [digitChar (n % 10)] := by
  have hd : n / 10 < n := Nat.div_lt_self (by omega) (by omega)
  have hfuel : natDecimalAux n (n / 10) = natDecimalAux (n / 10 + 1) (n / 10) :=
    natDecimalAux_fuel n (n / 10 + 1) (n / 10) (by omega) (by omega)
  show natDecimalAux (n + 1) n = natDecimalAux (n / 10 + 1) (n / 10) ++ [digitChar (n % 10)]
  rw [← hfuel]
  simp only [natDecimalAux, h, if_false]

theorem foldl_decStep_natDecimal (n : Nat) :
    ∀ a, List.foldl decStep a (natDecimal n) = a * 10 ^ (natDecimal n).length + n := by
  induction n using Nat.strong_induction_on with
  | _ n ih =>
    intro a
    by_cases h : n < 10
    · rw [natDecimal_lt n h]
      simp [decStep, digitChar_toNat n h]
      omega
    · rw [natDecimal_ge n h]
      rw [List.foldl_append]
      rw [ih (n / 10) (Nat.div_lt_self (by omega) (by omega))]
      simp only [List.foldl_cons, List.foldl_nil, List.length_append, List.length_cons,
        List.length_nil, decStep]
      rw [digitChar_toNat (n % 10) (Nat.mod_lt _ (by omega))]
      rw [pow_succ]
      rw [show ∀ x y : Nat, x * (y * 10) = x * y * 10 from fun x y => by ring]
      generalize a * 10 ^ (natDecimal (n / 10)).length = B
      omega

theorem foldl_decStep_replicate_zero (k : Nat) (l : List Char) :
    List.foldl decStep 0 (List.replicate k '0' ++ l) = List.foldl decStep 0 l := by
  induction k with
  | zero => simp
  | succ k ihk =>
    rw [List.replicate_succ, List.cons_append, List.foldl_cons]
    simpa [decStep] using ihk

theorem decVal_zpad (w n : Nat) : decVal (zpad w n) = n := by
  unfold decVal zpad
  rw [foldl_decStep_replicate_zero]
  simpa using foldl_decStep_natDecimal n 0

theorem zpad_inj (w : Nat) {a b : Nat} (h : zpad w a = zpad w b) : a = b := by
  have ha := decVal_zpad w a
  rw [h, decVal_zpad] at ha
  omega

/-! ### Distinctness of camera names -/

theorem formatPattern_num_ne (p : CameraPattern) {m n : Nat} (h : m ≠ n) :
    formatPattern p m ≠ formatPattern p n := by
  cases p <;>
    · intro he
      unfold formatPattern at he
      have h1 := List.append_cancel_left he
      have h2 := List.append_cancel_right h1
      exact h (zpad_inj _ h2)

theorem formatPattern_pat_ne {a b : CameraPattern} (h : a ≠ b) (m n : Nat) :
    formatPattern a m ≠ formatPattern b n := by
  cases a <;> cases b <;> first
    | exact absurd rfl h
    | · intro he
        have hh := congrArg List.head? he
        simp only [formatPattern, List.cons_append, List.head?_cons] at hh
        exact absurd hh (by decide)

theorem choosePattern_cases (d : Nat) :
    choosePattern d = (.img, 2000) ∨ choosePattern d = (.dsc, 5000) ∨
      choosePattern d = (.p, 1000000) := by
  unfold choosePattern
  have hl : CAMERA_PATTERNS.length = 3 := rfl
  rw [hl]
  have h1 : d % 3 = 0 ∨ d % 3 = 1 ∨ d % 3 = 2 := by omega
  rcases h1 with h | h | h <;> rw [h] <;> decide

theorem next_camera_name_ne {c1 c2 : Nat} (h : c1 ≠ c2) (d1 d2 : Nat) :
    next_camera_name d1 c1 ≠ next_camera_name d2 c2 := by
  intro he
  have hdata : formatPattern (choosePattern d1).1 ((choosePattern d1).2 + c1) =
      formatPattern (choosePattern d2).1 ((choosePattern d2).2 + c2) :=
    congrArg String.data he
  rcases choosePattern_cases d1 with e1 | e1 | e1 <;>
    rcases choosePattern_cases d2 with e2 | e2 | e2 <;>
      rw [e1, e2] at hdata <;>
      first
        | exact formatPattern_num_ne _ (by omega) hdata
        | exact formatPattern_pat_ne (by decide) _ _ hdata

/-- C1: for a strictly increasing sequence of counter values, the filenames
returned by `next_camera_name` are pairwise distinct, whatever pattern the
randomness source selects on each call (`draws` gives the pattern draw used
for each counter value). -/
theorem next_camera_name_pairwise_distinct (counters : List Nat) (draws : Nat → Nat)
    (h : counters.Pairwise (· < ·)) :
    (counters.map (fun c => next_camera_name (draws c) c)).Pairwise (· ≠ ·) :=
  h.map _ (fun _ _ hab => next_camera_name_ne (Nat.ne_of_lt hab) _ _)

/-- Witness for C1 at counters 1, 2, 3 with an identity draw oracle. -/
theorem next_camera_name_pairwise_distinct_witness :
    (([1, 2, 3] : List Nat).map
      (fun c => next_camera_name ((fun x => x) c) c)).Pairwise (· ≠ ·) :=
  next_camera_name_pairwise_distinct [1, 2, 3] (fun x => x) (by decide)

/-! ### Roster data and the generation loops -/

/-- `TEAMS` (lines 22-26). -/
def TEAMS : List (String × List String) :=
  [("Tigers", ["John Doe", "Amy Smith", "Carlos Reyes", "Mia Chen", "Evan Patel"]),
   ("Hawks", ["Liam Johnson", "Noah Davis", "Olivia Lee", "Emma Brown", "Ava Wilson"]),
   ("Sharks", ["Mason Clark", "Lucas Martinez", "Sophia Taylor", "Isabella Moore",
     "Mia Anderson"])]

/-- Python `s.split(" ", 1)`: at most one split, at the first space. -/
def split1 (s : String) : List String :=
  if ' ' ∈ s.data then
    [⟨s.data.takeWhile (· ≠ ' ')⟩, ⟨(s.data.dropWhile (· ≠ ' ')).drop 1⟩]
  else [s]

/-- One generated shot: a rendered image plus its roster data
(one iteration of the loop body at lines 111-130). -/
structure Shot where
  cam : String
  team : String
  player : String
  first : String
  last : String
  pose : Nat
deriving DecidableEq, Repr

/-- The CSV row appended for a shot (lines 122-130). -/
def shotRow (s : Shot) : List String :=
  [s.cam, s.first, s.last, "", "", "", s.team, s.team]

/-- `RANDOM.choice([2, 2, 3, 4])` (line 110) at draw time `t`. -/
def poseDraw (draws : Nat → Nat) (t : Nat) : Nat :=
  [2, 2, 3, 4].getD (draws t % 4) 0

/-- The loop `for pose_idx in range(1, pose_count + 1)` (lines 111-130):
`k` poses remain, the next has index `poseIdx`; `counter` is the global
filename counter and `t` the next oracle draw index.  Returns the shots in
emission order together with the final counter and draw index. -/
def posesLoop (draws : Nat → Nat) (team player first last : String) :
    Nat → Nat → Nat → Nat → List Shot × Nat × Nat
  | _, 0, counter, t => ([], counter, t)
  | poseIdx, k + 1, counter, t =>
    let cam := next_camera_name (draws t) counter
    let r := posesLoop draws team player first last (poseIdx + 1) k (counter + 1) (t + 1)
    (⟨cam, team, player, first, last, poseIdx⟩ :: r.1, r.2)

/-- The loop `for player in players` (lines 108-130).  The two-element
destructuring `first, last = player.split(" ", 1)` is fallible: `none`
models the `ValueError` Python would raise when the split does not give
exactly two parts. -/
def playersLoop (draws : Nat → Nat) (team : String) :
    List String → Nat → Nat → Option (List Shot × Nat × Nat)
  | [], counter, t => some ([], counter, t)
  | player :: rest, counter, t =>
    match split1 player with
    | [first, last] =>
      let pc := poseDraw draws t
      let r := posesLoop draws team player first last 1 pc counter (t + 1)
      match playersLoop draws team rest r.2.1 r.2.2 with
      | some (shots2, c2, t2) => some (r.1 ++ shots2, c2, t2)
      | none => none
    | _ => none

/-- The loop `for team, players in TEAMS` (lines 107-130). -/
def teamsLoop (draws : Nat → Nat) :
    List (String × List String) → Nat → Nat → Option (List Shot × Nat × Nat)
  | [], counter, t => some ([], counter, t)
  | (team, players) :: rest, counter, t =>
    match playersLoop draws team players counter t with
    | some (shots, c1, t1) =>
      match teamsLoop draws rest c1 t1 with
      | some (shots2, c2, t2) => some (shots ++ shots2, c2, t2)
      | none => none
    | none => none

/-- Lines 134-137: the conflict fixture filename
`f"{conflict_team}_{first} {last}_1.JPG"` computed from `TEAMS[0]`;
`none` models the failures of `TEAMS[0]`, `players[0]` or the two-element
destructuring. -/
def conflict_newname : Option String :=
  match TEAMS with
  | (conflict_team, players) :: _ =>
    match players with
    | conflict_player :: _ =>
      match split1 conflict_player with
      | [first, last] => some (conflict_team ++ "_" ++ first ++ " " ++ last ++ "_1.JPG")
      | _ => none
    | _ => none
  | [] => none

/-- Line 142. -/
def invalid_name : String := "IMG:INVALID<>NAME.JPG"

/-- Line 82. -/
def job_name : String := "2025_Youth_Baseball_League_TEST"

/-- The observable pure outcome of `create_sports_test_job`. -/
structure JobResult where
  shots : List Shot
  rows : List (List String)
  images : List String
deriving DecidableEq, Repr

/-- `create_sports_test_job` (lines 81-211), restricted to its pure
observables: the roster loop trace (`shots`), the CSV data rows after
`rows.extend(rows[:5])` at line 147 (`rows`), and the filenames written
into `Extracted/` in write order — the roster images (line 114), then the
conflict fixture (line 138) and the invalid-name fixture (line 143). -/
def create_sports_test_job (draws : Nat → Nat) : Option JobResult :=
  match teamsLoop draws TEAMS 1 0 with
  | some (shots, _, _) =>
    match conflict_newname with
    | some cn =>
      some ⟨shots, shots.map shotRow ++ (shots.map shotRow).take 5,
        shots.map Shot.cam ++ [cn, invalid_name]⟩
    | none => none
  | none => none

/-- `Path(base_path).expanduser() / job_name` (line 83), with filesystem
paths as component lists and `expanduser` an oracle resolving the base
path to its components. -/
def jobPath (expand : String → List String) (base_path : String) : List String :=
  expand base_path ++ [job_name]

/-- Font values as far as lines 46-51 distinguish them. -/
inductive Font
  | truetype (path : String) (size : Nat)
  | load_default
deriving DecidableEq, Repr

/-- Lines 46-51: try `ImageFont.truetype` for the two sizes; on any
exception in the `try` block, use `ImageFont.load_default()` for both
fonts.  `tt` is the oracle for the truetype call's outcome. -/
def pickFonts (tt : String → Nat → Except String Font) : Font × Font :=
  match tt "/System/Library/Fonts/SFNS.ttf" 48 with
  | .error _ => (Font.load_default, Font.load_default)
  | .ok font_title =>
    match tt "/System/Library/Fonts/SFNS.ttf" 28 with
    | .error _ => (Font.load_default, Font.load_default)
    | .ok font_sub => (font_title, font_sub)

/-! ### Derived views of the generation trace

The pose count drawn for each player, and the (team, player, pose) keys of
the emitted shots, recomputed declaratively from the oracle.  Each player
consumes one pose draw followed by one pattern draw per pose, so the draw
index advances by `1 + pc` per player. -/

/-- The pose counts drawn for a list of players when the first pose draw
happens at oracle index `t`. -/
def poseCountsPlayers (draws : Nat → Nat) : List String → Nat → List Nat
  | [], _ => []
  | _ :: rest, t =>
    let pc := poseDraw draws t
    pc :: poseCountsPlayers draws rest (t + 1 + pc)

/-- The pose counts drawn across a team table, in order. -/
def poseCountsTeams (draws : Nat → Nat) : List (String × List String) → Nat → List Nat
  | [], _ => []
  | (_, ps) :: rest, t =>
    let pcs := poseCountsPlayers draws ps t
    pcs ++ poseCountsTeams draws rest (t + ps.length + pcs.sum)

/-- The (team, player, pose) key of a shot. -/
def shotKey (s : Shot) : String × String × Nat := (s.team, s.player, s.pose)

/-- Declarative order of the shots of one team's players: player table
order, and for a player with pose count `k` the poses `1, …, k` ascending. -/
def keysPlayers (team : String) : List String → List Nat → List (String × String × Nat)
  | [], _ => []
  | _, [] => []
  | p :: ps, k :: ks =>
    (List.range' 1 k).map (fun i => (team, p, i)) ++ keysPlayers team ps ks

/-- Declarative order of all shots: team table order, then player order,
then ascending pose index. -/
def keysTeams : List (String × List String) → List Nat → List (String × String × Nat)
  | [], _ => []
  | (team, ps) :: rest, counts =>
    keysPlayers team ps (counts.take ps.length) ++ keysTeams rest (counts.drop ps.length)

/-- Every camera filename of `shots` was produced by `next_camera_name` at
some counter value in `[lo, hi)`. -/
def CamsFrom (shots : List Shot) (lo hi : Nat) : Prop :=
  ∀ s ∈ shots, ∃ d c, lo ≤ c ∧ c < hi ∧ s.cam = next_camera_name d c

/-! ### Structure of the loops -/

theorem poseDraw_cases (draws : Nat → Nat) (t : Nat) :
    poseDraw draws t = 2 ∨ poseDraw draws t = 3 ∨ poseDraw draws t = 4 := by
  unfold poseDraw
  have h : draws t % 4 = 0 ∨ draws t % 4 = 1 ∨ draws t % 4 = 2 ∨ draws t % 4 = 3 := by omega
  rcases h with h | h | h | h <;> rw [h] <;> decide

theorem posesLoop_eq (draws : Nat → Nat) (team player first last : String) :
    ∀ k poseIdx counter t,
      posesLoop draws team player first last poseIdx k counter t =
        ((List.range k).map (fun j =>
            ⟨next_camera_name (draws (t + j)) (counter + j),
             team, player, first, last, poseIdx + j⟩),
         counter + k, t + k) := by
  intro k
  induction k with
  | zero => intro poseIdx counter t; simp [posesLoop]
  | succ k ih =>
    intro poseIdx counter t
    simp only [posesLoop]
    rw [ih (poseIdx + 1) (counter + 1) (t + 1)]
    rw [List.range_succ_eq_map, List.map_cons, List.map_map]
    refine congrArg₂ Prod.mk (congrArg₂ List.cons (by simp) ?_)
      (by simp only [Prod.mk.injEq]; omega)
    apply List.map_congr_left
    intro j _
    simp only [Function.comp]
    have e1 : t + 1 + j = t + Nat.succ j := by omega
    have e2 : counter + 1 + j = counter + Nat.succ j := by omega
    have e3 : poseIdx + 1 + j = poseIdx + Nat.succ j := by omega
    rw [e1, e2, e3]

theorem poseCountsPlayers_length (draws : Nat → Nat) :
    ∀ players t, (poseCountsPlayers draws players t).length = players.length := by
  intro players
  induction players with
  | nil => intro t; rfl
  | cons p rest ih => intro t; simp [poseCountsPlayers, ih]

theorem poseCountsPlayers_mem (draws : Nat → Nat) :
    ∀ players t, ∀ x ∈ poseCountsPlayers draws players t, x = 2 ∨ x = 3 ∨ x = 4 := by
  intro players
  induction players with
  | nil => intro t x hx; simp [poseCountsPlayers] at hx
  | cons p rest ih =>
    intro t x hx
    simp only [poseCountsPlayers, List.mem_cons] at hx
    rcases hx with hx | hx
    · rw [hx]; exact poseDraw_cases draws t
    · exact ih _ x hx

theorem poseCountsTeams_mem (draws : Nat → Nat) :
    ∀ teams t, ∀ x ∈ poseCountsTeams draws teams t, x = 2 ∨ x = 3 ∨ x = 4 := by
  intro teams
  induction teams with
  | nil => intro t x hx; simp [poseCountsTeams] at hx
  | cons tp rest ih =>
    intro t x hx
    obtain ⟨team, ps⟩ := tp
    simp only [poseCountsTeams, List.mem_append] at hx
    rcases hx with hx | hx
    · exact poseCountsPlayers_mem draws ps t x hx
    · exact ih _ x hx

theorem poseCountsTeams_length (draws : Nat → Nat) :
    ∀ teams t, (poseCountsTeams draws teams t).length =
      (teams.map (fun tp => tp.2.length)).sum := by
  intro teams
  induction teams with
  | nil => intro t; rfl
  | cons tp rest ih =>
    intro t
    obtain ⟨team, ps⟩ := tp
    simp [poseCountsTeams, poseCountsPlayers_length, ih]

theorem camsFrom_mono {shots : List Shot} {lo hi lo' hi' : Nat} (h : CamsFrom shots lo hi)
    (h1 : lo' ≤ lo) (h2 : hi ≤ hi') : CamsFrom shots lo' hi' := by
  intro s hs
  obtain ⟨d, c, hc1, hc2, he⟩ := h s hs
  exact ⟨d, c, by omega, by omega, he⟩

theorem camsFrom_append {l1 l2 : List Shot} {lo mid hi : Nat} (h1 : CamsFrom l1 lo mid)
    (h2 : CamsFrom l2 mid hi) (hlm : lo ≤ mid) (hmh : mid ≤ hi) :
    CamsFrom (l1 ++ l2) lo hi := by
  intro s hs
  rcases List.mem_append.1 hs with hs | hs
  · obtain ⟨d, c, hc1, hc2, he⟩ := h1 s hs
    exact ⟨d, c, by omega, by omega, he⟩
  · obtain ⟨d, c, hc1, hc2, he⟩ := h2 s hs
    exact ⟨d, c, by omega, by omega, he⟩

theorem pairwise_cams_append {l1 l2 : List Shot} {lo mid hi : Nat}
    (h1 : CamsFrom l1 lo mid) (h2 : CamsFrom l2 mid hi)
    (p1 : (l1.map Shot.cam).Pairwise (· ≠ ·)) (p2 : (l2.map Shot.cam).Pairwise (· ≠ ·)) :
    ((l1 ++ l2).map Shot.cam).Pairwise (· ≠ ·) := by
  rw [List.map_append, List.pairwise_append]
  refine ⟨p1, p2, ?_⟩
  intro a ha b hb
  obtain ⟨s1, hs1, rfl⟩ := List.mem_map.1 ha
  obtain ⟨s2, hs2, rfl⟩ := List.mem_map.1 hb
  obtain ⟨d1, c1, _, hc1, e1⟩ := h1 s1 hs1
  obtain ⟨d2, c2, hc2, _, e2⟩ := h2 s2 hs2
  rw [e1, e2]
  exact next_camera_name_ne (by omega) d1 d2

theorem posesLoop_camsFrom (draws : Nat → Nat) (team player first last : String)
    (k poseIdx counter t : Nat) :
    CamsFrom (posesLoop draws team player first last poseIdx k counter t).1
      counter (counter + k) := by
  rw [posesLoop_eq]
  intro s hs
  obtain ⟨j, hj, rfl⟩ := List.mem_map.1 hs
  have hjk : j < k := List.mem_range.1 hj
  exact ⟨draws (t + j), counter + j, by omega, by omega, rfl⟩

theorem posesLoop_cams_pairwise (draws : Nat → Nat) (team player first last : String)
    (k poseIdx counter t : Nat) :
    (((posesLoop draws team player first last poseIdx k counter t).1).map
      Shot.cam).Pairwise (· ≠ ·) := by
  rw [posesLoop_eq, List.map_map]
  exact (List.pairwise_lt_range k).map _
    (fun a b hab => next_camera_name_ne (by omega) _ _)

theorem posesLoop_keys (draws : Nat → Nat) (team player first last : String)
    (k counter t : Nat) :
    ((posesLoop draws team player first last 1 k counter t).1).map shotKey =
      (List.range' 1 k).map (fun i => (team, player, i)) := by
  rw [posesLoop_eq, List.map_map, List.range'_eq_map_range, List.map_map]
  apply List.map_congr_left
  intro j _
  rfl

theorem playersLoop_spec (draws : Nat → Nat) (team : String) :
    ∀ players counter t,
      (∀ p ∈ players, (split1 p).length = 2) →
      ∃ shots,
        playersLoop draws team players counter t =
          some (shots, counter + (poseCountsPlayers draws players t).sum,
                t + players.length + (poseCountsPlayers draws players t).sum) ∧
        shots.length = (poseCountsPlayers draws players t).sum ∧
        CamsFrom shots counter (counter + (poseCountsPlayers draws players t).sum) ∧
        (shots.map Shot.cam).Pairwise (· ≠ ·) ∧
        shots.map shotKey = keysPlayers team players (poseCountsPlayers draws players t) := by
  intro players
  induction players with
  | nil =>
    intro counter t _
    exact ⟨[], by simp [playersLoop, poseCountsPlayers], by simp [poseCountsPlayers],
      by intro s hs; simp at hs, by simp, by simp [keysPlayers, poseCountsPlayers]⟩
  | cons player rest ih =>
    intro counter t h
    have hp : (split1 player).length = 2 := h player (List.mem_cons_self _ _)
    obtain ⟨first, last, hsplit⟩ := List.length_eq_two.1 hp
    obtain ⟨shots2, e2, len2, cams2, pair2, keys2⟩ :=
      ih (counter + poseDraw draws t) (t + 1 + poseDraw draws t)
        (fun p hp' => h p (List.mem_cons_of_mem _ hp'))
    refine ⟨(posesLoop draws team player first last 1 (poseDraw draws t) counter (t + 1)).1
      ++ shots2, ?_, ?_, ?_, ?_, ?_⟩
    · simp only [playersLoop, hsplit, posesLoop_eq, poseCountsPlayers, List.sum_cons,
        List.length_cons, e2, Option.some.injEq, Prod.mk.injEq, true_and]
      all_goals omega
    · simp only [List.length_append, posesLoop_eq, List.length_map, List.length_range,
        poseCountsPlayers, List.sum_cons, len2]
      all_goals omega
    · refine camsFrom_mono
        (camsFrom_append (posesLoop_camsFrom draws team player first last
          (poseDraw draws t) 1 counter (t + 1)) cams2 (by omega) (by omega))
        (le_refl _) ?_
      simp only [poseCountsPlayers, List.sum_cons]
      omega
    · exact pairwise_cams_append
        (posesLoop_camsFrom draws team player first last (poseDraw draws t) 1 counter (t + 1))
        cams2
        (posesLoop_cams_pairwise draws team player first last (poseDraw draws t) 1 counter (t + 1))
        pair2
    · rw [List.map_append, posesLoop_keys, keys2]
      simp only [poseCountsPlayers, keysPlayers]

theorem teamsLoop_spec (draws : Nat → Nat) :
    ∀ teams counter t,
      (∀ tp ∈ teams, ∀ p ∈ tp.2, (split1 p).length = 2) →
      ∃ shots,
        teamsLoop draws teams counter t =
          some (shots, counter + (poseCountsTeams draws teams t).sum,
                t + (teams.map (fun tp => tp.2.length)).sum +
                  (poseCountsTeams draws teams t).sum) ∧
        shots.length = (poseCountsTeams draws teams t).sum ∧
        CamsFrom shots counter (counter + (poseCountsTeams draws teams t).sum) ∧
        (shots.map Shot.cam).Pairwise (· ≠ ·) ∧
        shots.map shotKey = keysTeams teams (poseCountsTeams draws teams t) := by
  intro teams
  induction teams with
  | nil =>
    intro counter t _
    exact ⟨[], by simp [teamsLoop, poseCountsTeams], by simp [poseCountsTeams],
      by intro s hs; simp at hs, by simp, by simp [keysTeams, poseCountsTeams]⟩
  | cons tp rest ih =>
    intro counter t h
    obtain ⟨team, ps⟩ := tp
    obtain ⟨shots1, e1, len1, cams1, pair1, keys1⟩ :=
      playersLoop_spec draws team ps counter t
        (fun p hp' => h (team, ps) (List.mem_cons_self _ _) p hp')
    obtain ⟨shots2, e2, len2, cams2, pair2, keys2⟩ :=
      ih (counter + (poseCountsPlayers draws ps t).sum)
        (t + ps.length + (poseCountsPlayers draws ps t).sum)
        (fun tp' htp' => h tp' (List.mem_cons_of_mem _ htp'))
    refine ⟨shots1 ++ shots2, ?_, ?_, ?_, ?_, ?_⟩
    · simp only [teamsLoop, e1, e2, Option.some.injEq, Prod.mk.injEq, poseCountsTeams,
        List.sum_append, List.map_cons, List.sum_cons, true_and]
      all_goals omega
    · simp only [List.length_append, len1, len2, poseCountsTeams, List.sum_append]
    · refine camsFrom_mono (camsFrom_append cams1 cams2 (by omega) (by omega))
        (le_refl _) ?_
      simp only [poseCountsTeams, List.sum_append]
      omega
    · exact pairwise_cams_append cams1 cams2 pair1 pair2
    · rw [List.map_append, keys1, keys2]
      simp only [poseCountsTeams, keysTeams]
      rw [List.take_left' (poseCountsPlayers_length draws ps t),
        List.drop_left' (poseCountsPlayers_length draws ps t)]

/-! ### Shared facts about the fixed tables -/

theorem TEAMS_names_split : ∀ tp ∈ TEAMS, ∀ p ∈ tp.2, (split1 p).length = 2 := by decide

theorem conflict_some : conflict_newname = some "Tigers_John Doe_1.JPG" := by decide

theorem create_sports_test_job_eq (draws : Nat → Nat) {shots : List Shot} {c t : Nat}
    (h : teamsLoop draws TEAMS 1 0 = some (shots, c, t)) :
    create_sports_test_job draws =
      some ⟨shots, shots.map shotRow ++ (shots.map shotRow).take 5,
        shots.map Shot.cam ++ ["Tigers_John Doe_1.JPG", invalid_name]⟩ := by
  simp only [create_sports_test_job, h, conflict_some]

theorem sum_bounds_of_mem {l : List Nat} (h : ∀ x ∈ l, x = 2 ∨ x = 3 ∨ x = 4) :
    2 * l.length ≤ l.sum ∧ l.sum ≤ 4 * l.length := by
  induction l with
  | nil => simp
  | cons x xs ih =>
    have hx := h x (List.mem_cons_self _ _)
    have hxs := ih (fun y hy => h y (List.mem_cons_of_mem _ hy))
    simp only [List.sum_cons, List.length_cons]
    omega

theorem poseCounts_TEAMS_length (draws : Nat → Nat) :
    (poseCountsTeams draws TEAMS 0).length = 15 := by
  rw [poseCountsTeams_length]
  rfl

/-! ### Claim theorems -/

/-- C2 counterexample: with the oracle that always returns 0 every player
draws pose count 2, the CSV has 35 data rows (in the claimed range 35-65),
but the `Extracted` directory receives 32 images, not 35 + 2 = 37. -/
theorem job_counts_counterexample :
    (create_sports_test_job (fun _ => 0)).map (fun r => (r.rows.length, r.images.length)) =
      some (35, 32) ∧ ¬ ((32 : Nat) = 35 + 2) := by
  exact ⟨by decide, by decide⟩

/-- C2 (amended): with 3 teams of 5 players and pose counts drawn from
{2,2,3,4}, the metadata table has between 35 and 65 data rows inclusive,
and the images directory receives that row count minus 5 plus 2 images
(equivalently, images + 3 = rows: the image count pairs with the real rows,
not with the duplicated row total). -/
theorem job_row_and_image_counts (draws : Nat → Nat) :
    ∃ r, create_sports_test_job draws = some r ∧
      35 ≤ r.rows.length ∧ r.rows.length ≤ 65 ∧ r.images.length + 3 = r.rows.length := by
  obtain ⟨shots, e, len, _, _, _⟩ := teamsLoop_spec draws TEAMS 1 0 TEAMS_names_split
  have hmem := poseCountsTeams_mem draws TEAMS 0
  have hlen15 := poseCounts_TEAMS_length draws
  have hb := sum_bounds_of_mem hmem
  refine ⟨_, create_sports_test_job_eq draws e, ?_, ?_, ?_⟩ <;>
    · simp only [List.length_append, List.length_map, List.length_take, List.length_cons,
        List.length_nil, len]
      omega

/-- C3: the number of images written into the `Extracted` directory equals
the sum of the per-player pose counts over all teams and players
(`poseCountsTeams` recomputes the drawn counts: 15 of them, each in
{2,3,4}), plus exactly 2 for the conflict and invalid-name fixtures. -/
theorem job_images_eq_pose_sum_plus_two (draws : Nat → Nat) :
    ∃ r, create_sports_test_job draws = some r ∧
      r.images.length = (poseCountsTeams draws TEAMS 0).sum + 2 ∧
      (poseCountsTeams draws TEAMS 0).length = 15 ∧
      ∀ x ∈ poseCountsTeams draws TEAMS 0, x = 2 ∨ x = 3 ∨ x = 4 := by
  obtain ⟨shots, e, len, _, _, _⟩ := teamsLoop_spec draws TEAMS 1 0 TEAMS_names_split
  refine ⟨_, create_sports_test_job_eq draws e, ?_, poseCounts_TEAMS_length draws,
    poseCountsTeams_mem draws TEAMS 0⟩
  simp only [List.length_append, List.length_map, List.length_cons, List.length_nil, len]

/-- Modelled from the spec: the downstream application's rename rule
`team_firstName lastName_poseIndex.extension` (the consuming application is
not part of this repository). -/
def expectedRenameName (team firstName lastName : String) (poseIndex : Nat)
    (ext : String) : String :=
  team ++ "_" ++ firstName ++ " " ++ lastName ++ "_" ++ ⟨natDecimal poseIndex⟩ ++ "." ++ ext

/-- C4: the conflict fixture's filename is byte-identical to the name the
downstream rename rule computes for pose 1 of the first player of the first
team, namely "Tigers_John Doe_1.JPG". -/
theorem conflict_name_matches_rename_rule :
    conflict_newname = some "Tigers_John Doe_1.JPG" ∧
    ∃ tp player first last,
      TEAMS.head? = some tp ∧ tp.2.head? = some player ∧ split1 player = [first, last] ∧
      conflict_newname = some (expectedRenameName tp.1 first last 1 "JPG") :=
  ⟨by decide,
   ("Tigers", ["John Doe", "Amy Smith", "Carlos Reyes", "Mia Chen", "Evan Patel"]),
   "John Doe", "John", "Doe", rfl, rfl, by decide, by decide⟩

/-- C5: the column-0 (original filename) entries of the real
(pre-duplication) CSV rows are pairwise distinct, and the final row list is
the real rows followed by a copy of the first 5 real rows. -/
theorem rows_real_distinct_and_duplicate_suffix (draws : Nat → Nat) :
    ∃ r, create_sports_test_job draws = some r ∧
      ((r.shots.map shotRow).map (fun row => row.getD 0 "")).Pairwise (· ≠ ·) ∧
      r.rows = r.shots.map shotRow ++ (r.shots.map shotRow).take 5 := by
  obtain ⟨shots, e, _, _, pair, _⟩ := teamsLoop_spec draws TEAMS 1 0 TEAMS_names_split
  refine ⟨_, create_sports_test_job_eq draws e, ?_, rfl⟩
  rw [List.map_map]
  exact pair

/-- The first key of the declarative ordering is pose 1 of the first player
of the first team, as soon as that player's pose count is positive. -/
theorem keysTeams_head (team p : String) (ps : List String)
    (rest : List (String × List String)) (counts : List Nat) (k : Nat)
    (hk : counts.head? = some k) (hk2 : 0 < k) :
    (keysTeams ((team, p :: ps) :: rest) counts).head? = some (team, p, 1) := by
  match counts, hk with
  | k :: counts', rfl =>
    match k, hk2 with
    | kk + 1, _ =>
      simp only [keysTeams, keysPlayers, List.length_cons, List.take_succ_cons,
        List.range'_succ, List.map_cons, List.cons_append, List.head?_cons]

/-- C6: the emitted shot sequence follows team table order, then player
table order, then ascending pose index 1..count (the declarative
`keysTeams` ordering); in particular the first emitted record is pose 1 of
the first player of the first team. -/
theorem shots_ordering (draws : Nat → Nat) :
    ∃ r, create_sports_test_job draws = some r ∧
      r.shots.map shotKey = keysTeams TEAMS (poseCountsTeams draws TEAMS 0) ∧
      (r.shots.map shotKey).head? = some ("Tigers", "John Doe", 1) := by
  obtain ⟨shots, e, _, _, _, keys⟩ := teamsLoop_spec draws TEAMS 1 0 TEAMS_names_split
  refine ⟨_, create_sports_test_job_eq draws e, keys, ?_⟩
  rw [keys]
  refine keysTeams_head _ _ _ _ _ (poseDraw draws 0) ?_ ?_
  · simp [TEAMS, poseCountsTeams, poseCountsPlayers]
  · rcases poseDraw_cases draws 0 with h | h | h <;> omega

/-- C8: font resolution never propagates an error: either both truetype
loads succeed and those fonts are used, or (on any failure) both title and
subtitle fall back to the built-in default font. -/
theorem pickFonts_never_fails (tt : String → Nat → Except String Font) :
    (∃ f48 f28, tt "/System/Library/Fonts/SFNS.ttf" 48 = .ok f48 ∧
        tt "/System/Library/Fonts/SFNS.ttf" 28 = .ok f28 ∧ pickFonts tt = (f48, f28)) ∨
      pickFonts tt = (Font.load_default, Font.load_default) := by
  unfold pickFonts
  cases h48 : tt "/System/Library/Fonts/SFNS.ttf" 48 with
  | error e => right; rfl
  | ok f48 =>
    cases h28 : tt "/System/Library/Fonts/SFNS.ttf" 28 with
    | error e => right; rfl
    | ok f28 => left; exact ⟨f48, f28, rfl, rfl, rfl⟩

/-- C9: the fixture root is always the fixed constant name
"2025_Youth_Baseball_League_TEST"; the base-path option only selects the
parent directory. -/
theorem jobPath_fixed_fixture_name (expand : String → List String) (base_path : String) :
    (jobPath expand base_path).getLast? = some "2025_Youth_Baseball_League_TEST" ∧
    (jobPath expand base_path).dropLast = expand base_path := by
  exact ⟨List.getLast?_concat _, List.dropLast_concat⟩

/-- C10: every player name in TEAMS contains a space, the split on the
first space yields exactly two non-empty parts, and therefore neither the
roster loop nor the conflict-fixture construction can fail. -/
theorem team_names_split_safe (draws : Nat → Nat) :
    (∀ tp ∈ TEAMS, ∀ p ∈ tp.2,
      ' ' ∈ p.data ∧ (split1 p).length = 2 ∧ ∀ q ∈ split1 p, q ≠ "") ∧
    (∃ x, teamsLoop draws TEAMS 1 0 = some x) ∧
    conflict_newname.isSome := by
  refine ⟨by decide, ?_, by decide⟩
  obtain ⟨shots, e, _⟩ := teamsLoop_spec draws TEAMS 1 0 TEAMS_names_split
  exact ⟨_, e⟩

/-! ### Determinism: the outputs depend only on the draw sequence actually
consumed.  Each player consumes 1 pose draw plus at most 4 pattern draws,
so a run over `TEAMS` (15 players) reads oracle indices below 75. -/

theorem posesLoop_congr (d1 d2 : Nat → Nat) (team player first last : String) :
    ∀ k poseIdx counter t, (∀ s, t ≤ s → s < t + k → d1 s = d2 s) →
      posesLoop d1 team player first last poseIdx k counter t =
        posesLoop d2 team player first last poseIdx k counter t := by
  intro k
  induction k with
  | zero => intro poseIdx counter t _; rfl
  | succ k ih =>
    intro poseIdx counter t h
    simp only [posesLoop]
    rw [h t (le_refl t) (by omega),
      ih (poseIdx + 1) (counter + 1) (t + 1) (fun s h1 h2 => h s (by omega) (by omega))]

theorem playersLoop_bound (draws : Nat → Nat) (team : String) :
    ∀ players counter t shots c' t',
      playersLoop draws team players counter t = some (shots, c', t') →
      t ≤ t' ∧ t' ≤ t + 5 * players.length := by
  intro players
  induction players with
  | nil =>
    intro counter t shots c' t' h
    simp only [playersLoop, Option.some.injEq, Prod.mk.injEq] at h
    omega
  | cons player rest ih =>
    intro counter t shots c' t' h
    simp only [playersLoop, posesLoop_eq] at h
    split at h
    · split at h
      · rename_i shots2 c2 t2 heq
        have hpc := poseDraw_cases draws t
        have hb := ih _ _ _ _ _ heq
        simp only [Option.some.injEq, Prod.mk.injEq] at h
        simp only [List.length_cons]
        omega
      · exact absurd h (by simp)
    · exact absurd h (by simp)

theorem playersLoop_congr (d1 d2 : Nat → Nat) (team : String) :
    ∀ players counter t, (∀ s, t ≤ s → s < t + 5 * players.length → d1 s = d2 s) →
      playersLoop d1 team players counter t = playersLoop d2 team players counter t := by
  intro players
  induction players with
  | nil => intro counter t _; rfl
  | cons player rest ih =>
    intro counter t h
    rw [List.length_cons] at h
    have hpc := poseDraw_cases d1 t
    have hd : d1 t = d2 t := h t (le_refl t) (by omega)
    have hpd : poseDraw d2 t = poseDraw d1 t := by unfold poseDraw; rw [hd]
    rcases hsp : split1 player with _ | ⟨f, _ | ⟨l, _ | ⟨x, xs⟩⟩⟩ <;>
      simp only [playersLoop, hsp, hpd] <;> try rfl
    rw [posesLoop_congr d1 d2 team player f l (poseDraw d1 t) 1 counter (t + 1)
      (fun s h1 h2 => h s (by omega) (by omega))]
    rw [posesLoop_eq]
    rw [ih (counter + poseDraw d1 t) (t + 1 + poseDraw d1 t)
      (fun s h1 h2 => h s (by omega) (by omega))]

theorem teamsLoop_congr (d1 d2 : Nat → Nat) :
    ∀ teams counter t,
      (∀ s, t ≤ s → s < t + 5 * (teams.map (fun tp => tp.2.length)).sum → d1 s = d2 s) →
      teamsLoop d1 teams counter t = teamsLoop d2 teams counter t := by
  intro teams
  induction teams with
  | nil => intro counter t _; rfl
  | cons tp rest ih =>
    obtain ⟨team, ps⟩ := tp
    intro counter t h
    simp only [List.map_cons, List.sum_cons] at h
    have hpl : playersLoop d1 team ps counter t = playersLoop d2 team ps counter t :=
      playersLoop_congr d1 d2 team ps counter t (fun s h1 h2 => h s h1 (by omega))
    simp only [teamsLoop, ← hpl]
    cases hr : playersLoop d1 team ps counter t with
    | none => rfl
    | some r =>
      obtain ⟨shots1, c1, t1⟩ := r
      have hb := playersLoop_bound d1 team ps counter t shots1 c1 t1 hr
      have hteams : teamsLoop d1 rest c1 t1 = teamsLoop d2 rest c1 t1 :=
        ih c1 t1 (fun s h1 h2 => h s (by omega) (by omega))
      simp only [hteams]

/-- C7: for the same draw sequence (the deterministic seeded PRNG replayed
with the same seed and call order), two runs produce identical outputs:
the result depends only on the oracle values at the at most 75 draw
indices a run can consume. -/
theorem create_sports_test_job_deterministic (d1 d2 : Nat → Nat)
    (h : ∀ s, s < 75 → d1 s = d2 s) :
    create_sports_test_job d1 = create_sports_test_job d2 := by
  have hsum : (TEAMS.map (fun tp => tp.2.length)).sum = 15 := rfl
  unfold create_sports_test_job
  rw [teamsLoop_congr d1 d2 TEAMS 1 0 (fun s h1 h2 => h s (by omega))]

/-- Witness for C7: two different oracles agreeing below index 75 give the
same fixture. -/
theorem create_sports_test_job_deterministic_witness :
    create_sports_test_job (fun _ => 0) =
      create_sports_test_job (fun s => if s < 75 then 0 else 1) :=
  create_sports_test_job_deterministic _ _ (fun s hs => by simp [hs])

end CreateTestJob
